import Mathlib

/-!
Verification of the edulinker messenger core (tus upload store, durable
stream store, LAN peer messaging) against its natural-language
specification.  The Rust sources under src-tauri/src are shallowly
embedded: the mutex-guarded stores become explicit state records, the
fallible operations return Except values, and machine integers (u64)
become Nat (the counters only ever grow by small increments, so no
wrap-around is reachable and modular reduction is not modelled).
-/

/-! ## Decimal rendering

Rust renders a u64 with the Display trait as its decimal digits, most
significant first, with no sign and no leading zeros, and renders 0 as
the single digit 0.  The stream store builds its ETag from two such
renderings, so we embed the decimal rendering and prove it injective.
-/

/-- Base-10 digit extraction with explicit fuel, least significant digit
first.  Structural recursion on the fuel keeps it kernel-reducible. -/
def decDigitsAux : Nat → Nat → List Nat
  | 0, _ => []
  | fuel + 1, n => if n < 10 then [n] else (n % 10) :: decDigitsAux fuel (n / 10)

/-- Base-10 digits of a natural number, least significant first. -/
def decDigitsRev (n : Nat) : List Nat :=
  decDigitsAux (n + 1) n

/-- Value of a least-significant-first digit list. -/
def ofDigitsRev : List Nat → Nat
  | [] => 0
  | d :: ds => d + 10 * ofDigitsRev ds

theorem ofDigitsRev_decDigitsAux :
    ∀ fuel n, n < fuel → ofDigitsRev (decDigitsAux fuel n) = n := by
  intro fuel
  induction fuel with
  | zero => omega
  | succ fuel ih =>
    intro n hn
    unfold decDigitsAux
    split
    · simp [ofDigitsRev]
    · rename_i h
      rw [ofDigitsRev, ih (n / 10) (by omega)]
      omega

theorem ofDigitsRev_decDigitsRev (n : Nat) : ofDigitsRev (decDigitsRev n) = n :=
  ofDigitsRev_decDigitsAux (n + 1) n (by omega)

theorem decDigitsRev_inj {m n : Nat} (h : decDigitsRev m = decDigitsRev n) : m = n := by
  have hm := ofDigitsRev_decDigitsRev m
  rw [h, ofDigitsRev_decDigitsRev] at hm
  exact hm.symm

theorem decDigitsAux_lt : ∀ fuel n, ∀ d ∈ decDigitsAux fuel n, d < 10 := by
  intro fuel
  induction fuel with
  | zero => simp [decDigitsAux]
  | succ fuel ih =>
    intro n d hd
    unfold decDigitsAux at hd
    split at hd
    · rename_i h
      simp at hd
      omega
    · rcases List.mem_cons.mp hd with h1 | h1
      · omega
      · exact ih (n / 10) d h1

theorem decDigitsRev_lt (n : Nat) : ∀ d ∈ decDigitsRev n, d < 10 :=
  decDigitsAux_lt (n + 1) n

/-- Character for one decimal digit. -/
def digChar (d : Nat) : Char :=
  if d = 0 then '0' else if d = 1 then '1' else if d = 2 then '2' else if d = 3 then '3'
  else if d = 4 then '4' else if d = 5 then '5' else if d = 6 then '6' else if d = 7 then '7'
  else if d = 8 then '8' else if d = 9 then '9' else '*'

/-- Left inverse of digChar on digits. -/
def charToDig (c : Char) : Nat :=
  if c = '0' then 0 else if c = '1' then 1 else if c = '2' then 2 else if c = '3' then 3
  else if c = '4' then 4 else if c = '5' then 5 else if c = '6' then 6 else if c = '7' then 7
  else if c = '8' then 8 else if c = '9' then 9 else 10

theorem charToDig_digChar (d : Nat) (h : d < 10) : charToDig (digChar d) = d := by
  interval_cases d <;> rfl

theorem digChar_ne_colon (d : Nat) : digChar d ≠ ':' := by
  unfold digChar
  split <;> try decide
  split <;> try decide
  split <;> try decide
  split <;> try decide
  split <;> try decide
  split <;> try decide
  split <;> try decide
  split <;> try decide
  split <;> try decide
  split <;> decide

theorem digChar_ne_quote (d : Nat) : digChar d ≠ '"' := by
  unfold digChar
  split <;> try decide
  split <;> try decide
  split <;> try decide
  split <;> try decide
  split <;> try decide
  split <;> try decide
  split <;> try decide
  split <;> try decide
  split <;> try decide
  split <;> decide

/-- Decimal rendering of a natural number as a character list, most
significant digit first, mirroring the Rust Display output for u64. -/
def natChars (n : Nat) : List Char :=
  ((decDigitsRev n).reverse).map digChar

theorem natChars_inj {m n : Nat} (h : natChars m = natChars n) : m = n := by
  unfold natChars at h
  have h2 := congrArg (List.map charToDig) h
  rw [List.map_map, List.map_map] at h2
  have hmap : ∀ k : Nat, ((decDigitsRev k).reverse).map (charToDig ∘ digChar)
      = (decDigitsRev k).reverse := by
    intro k
    apply (List.map_congr_left ?_).trans (List.map_id _)
    intro d hd
    exact charToDig_digChar d (decDigitsRev_lt k d (List.mem_reverse.mp hd))
  rw [hmap m, hmap n] at h2
  exact decDigitsRev_inj (List.reverse_inj.mp h2)

theorem colon_not_mem_natChars (n : Nat) : ':' ∉ natChars n := by
  unfold natChars
  intro hc
  rcases List.mem_map.mp hc with ⟨d, _, hd⟩
  exact digChar_ne_colon d hd

theorem quote_not_mem_natChars (n : Nat) : '"' ∉ natChars n := by
  unfold natChars
  intro hc
  rcases List.mem_map.mp hc with ⟨d, _, hd⟩
  exact digChar_ne_quote d hd

/-- Unique splitting of a list at a separator that occurs in neither prefix part. -/
theorem append_sep_inj {sep : Char} :
    ∀ {a1 a2 b1 b2 : List Char}, sep ∉ a1 → sep ∉ a2 →
    a1 ++ sep :: b1 = a2 ++ sep :: b2 → a1 = a2 ∧ b1 = b2 := by
  intro a1
  induction a1 with
  | nil =>
    intro a2 b1 b2 _ h2 h
    cases a2 with
    | nil => simpa using h
    | cons c t =>
      simp only [List.nil_append, List.cons_append, List.cons.injEq] at h
      exact absurd (h.1 ▸ List.mem_cons_self c t) h2
  | cons c t ih =>
    intro a2 b1 b2 h1 h2 h
    cases a2 with
    | nil =>
      simp only [List.nil_append, List.cons_append, List.cons.injEq] at h
      exact absurd (h.1.symm ▸ List.mem_cons_self c t) h1
    | cons c2 t2 =>
      simp only [List.cons_append, List.cons.injEq] at h
      have ht := ih (fun hm => h1 (List.mem_cons_of_mem c hm))
        (fun hm => h2 (List.mem_cons_of_mem c2 hm)) h.2
      exact ⟨by rw [h.1, ht.1], ht.2⟩

/-! ## Durable stream store (src-tauri/src/streams/storage.rs)

The MessageStorage struct holds a SQLite connection plus three
RwLock-guarded counters.  We embed it as one state record: the messages
table becomes a list of rows, the three counters become fields, and the
broadcast channel becomes the list of messages published so far.  A
SQLite INSERT into the messages table fails exactly when it violates a
constraint of the schema: id is the primary key and offset is UNIQUE,
so the embedded insert fails iff the new row collides with an existing
row on either column.  Payloads are embedded as their serialized JSON
text; byte_size is the UTF-8 byte length of that text, as in
payload.to_string().len().
-/

/-- Message type enum of the stream store. -/
inductive MessageType where
  | text | file | image | typing | readReceipt | deliveryReceipt | system | presence
deriving DecidableEq, Repr

/-- Stream message as carried by append, reads and the broadcast channel. -/
structure StreamMessage where
  id : String
  offset : Nat
  msgType : MessageType
  payload : String
  senderId : String
  recipientId : String
  timestamp : String
deriving DecidableEq, Repr

/-- Row of the messages table (the stored columns, including byte_size). -/
structure MessageRow where
  id : String
  offset : Nat
  msgType : MessageType
  payload : String
  senderId : String
  recipientId : String
  timestamp : String
  byteSize : Nat
deriving DecidableEq, Repr

/-- Error enum of the stream store (the io::Error payload is dropped). -/
inductive StreamError where
  | NotFound (path : String)
  | InvalidOffset (offset : Nat)
  | StorageError (msg : String)
  | SerializationError (msg : String)
  | IoError
deriving DecidableEq, Repr

/-- In-memory state of MessageStorage: the messages table, the three
counters, and the trace of messages sent on the broadcast channel. -/
structure StreamState where
  currentOffset : Nat
  totalBytes : Nat
  etag : String
  messages : List MessageRow
  broadcasts : List StreamMessage
deriving DecidableEq, Repr

/-- ETag string, the quoted pair offset:bytes (MessageStorage::generate_etag). -/
def generate_etag (offset bytes : Nat) : String :=
  String.mk (('"' :: natChars offset) ++ (':' :: (natChars bytes ++ ['"'])))

theorem generate_etag_inj {o1 b1 o2 b2 : Nat}
    (h : generate_etag o1 b1 = generate_etag o2 b2) : o1 = o2 ∧ b1 = b2 := by
  unfold generate_etag at h
  have hd := congrArg String.data h
  simp only [List.cons_append, List.cons.injEq, true_and] at hd
  have h1 := append_sep_inj (colon_not_mem_natChars o1) (colon_not_mem_natChars o2) hd
  have hb : natChars b1 = natChars b2 := by simpa using h1.2
  exact ⟨natChars_inj h1.1, natChars_inj hb⟩

/-- Startup state over an empty database: MessageStorage::new reads
MAX(offset) and SUM(byte_size), both 0, and derives the ETag from them. -/
def StreamState.init : StreamState :=
  { currentOffset := 0
    totalBytes := 0
    etag := generate_etag 0 0
    messages := []
    broadcasts := [] }

/-- Append one message (MessageStorage::append).  The offset counter is
incremented first, then the row is inserted; on insert failure the
already-advanced counter is not rolled back and nothing else changes.
On success total_bytes grows by byte_size, the ETag is recomputed from
the two counters, and the stored message is broadcast and returned. -/
def append (s : StreamState) (m : StreamMessage) :
    Except StreamError StreamMessage × StreamState :=
  if s.messages.any (fun r => r.id == m.id || r.offset == s.currentOffset + 1) then
    (Except.error (StreamError.StorageError "UNIQUE constraint failed"),
      { s with currentOffset := s.currentOffset + 1 })
  else
    (Except.ok { m with offset := s.currentOffset + 1 },
      { currentOffset := s.currentOffset + 1
        totalBytes := s.totalBytes + m.payload.utf8ByteSize
        etag := generate_etag (s.currentOffset + 1) (s.totalBytes + m.payload.utf8ByteSize)
        messages := s.messages ++
          [{ id := m.id
             offset := s.currentOffset + 1
             msgType := m.msgType
             payload := m.payload
             senderId := m.senderId
             recipientId := m.recipientId
             timestamp := m.timestamp
             byteSize := m.payload.utf8ByteSize }]
        broadcasts := s.broadcasts ++ [{ m with offset := s.currentOffset + 1 }] })

/-- Row restricted to the columns returned by the SELECT statements. -/
def MessageRow.toMessage (r : MessageRow) : StreamMessage :=
  { id := r.id, offset := r.offset, msgType := r.msgType, payload := r.payload,
    senderId := r.senderId, recipientId := r.recipientId, timestamp := r.timestamp }

/-- Insert one row into a list sorted by ascending offset. -/
def insertByOffset (r : MessageRow) : List MessageRow → List MessageRow
  | [] => [r]
  | x :: xs => if r.offset ≤ x.offset then r :: x :: xs else x :: insertByOffset r xs

/-- Sort rows by ascending offset (the ORDER BY offset ASC of the queries). -/
def sortByOffset : List MessageRow → List MessageRow
  | [] => []
  | x :: xs => insertByOffset x (sortByOffset xs)

/-- Query of MessageStorage::get_from_offset: rows with offset strictly
above the argument, ascending, limited. -/
def get_from_offset (s : StreamState) (offset : Nat) (limit : Nat) : List StreamMessage :=
  (((sortByOffset s.messages).filter (fun r => offset < r.offset)).take limit).map
    MessageRow.toMessage

/-- Offset range of a Range header (streams/types.rs OffsetRange). -/
structure OffsetRange where
  start : Nat
  stop : Option Nat
deriving DecidableEq, Repr

/-- Read response of the range read (streams/types.rs ReadResponse). -/
structure ReadResponse where
  messages : List StreamMessage
  startOffset : Nat
  endOffset : Nat
  totalOffset : Nat
  hasMore : Bool
deriving DecidableEq, Repr

/-- Range read (MessageStorage::get_range): the requested end is
range.end.unwrap_or(current).min(current); the response's end_offset is
the offset of the last returned message (or range.start when none), and
has_more compares that actual end against the clamped requested end. -/
def get_range (s : StreamState) (range : OffsetRange) (limit : Nat) : ReadResponse :=
  let current := s.currentOffset
  let endOffset := min (range.stop.getD current) current
  let messages := get_from_offset s range.start limit
  let actualEnd := ((messages.getLast?).map StreamMessage.offset).getD range.start
  { messages := messages
    startOffset := range.start
    endOffset := actualEnd
    totalOffset := current
    hasMore := decide (actualEnd < endOffset) }

/-- HTTP status chosen by handle_get_messages_range: 206 when the read
response reports has_more, else 200. -/
def range_status (resp : ReadResponse) : Nat :=
  if resp.hasMore then 206 else 200

/-- Delete one message by id (MessageStorage::delete_message): the row's
byte_size is looked up first; a missing row returns false and changes
nothing.  Otherwise the row is deleted, total_bytes is decremented by
the recorded byte_size (saturating), and the ETag is recomputed from the
unchanged offset counter and the new byte total. -/
def delete_message (s : StreamState) (id : String) : Bool × StreamState :=
  match s.messages.find? (fun r => r.id == id) with
  | none => (false, s)
  | some row =>
    let totalBytes := s.totalBytes - row.byteSize
    (true,
      { s with
        messages := s.messages.filter (fun r => !(r.id == id))
        totalBytes := totalBytes
        etag := generate_etag s.currentOffset totalBytes })

/-- Run a list of appends in order, collecting each result. -/
def runAppends (s : StreamState) : List StreamMessage →
    List (Except StreamError StreamMessage) × StreamState
  | [] => ([], s)
  | m :: ms =>
    let step := append s m
    let rest := runAppends step.2 ms
    (step.1 :: rest.1, rest.2)

/-! ## Basic facts about append -/

/-- The offset counter is advanced by every append, successful or not. -/
theorem append_currentOffset (s : StreamState) (m : StreamMessage) :
    (append s m).2.currentOffset = s.currentOffset + 1 := by
  unfold append
  split <;> rfl

/-- A successful append returns the message stamped with the fresh offset. -/
theorem append_ok_offset (s : StreamState) (m : StreamMessage) (m' : StreamMessage)
    (h : (append s m).1 = Except.ok m') : m'.offset = s.currentOffset + 1 := by
  unfold append at h
  split at h
  · exact absurd h (by simp)
  · cases h
    rfl

/-- A failed append advances only the offset counter: the byte total, the
ETag, the table and the broadcast trace are untouched. -/
theorem append_error_state (s : StreamState) (m : StreamMessage) (e : StreamError)
    (h : (append s m).1 = Except.error e) :
    (append s m).2 = { s with currentOffset := s.currentOffset + 1 } := by
  unfold append at h ⊢
  split at h
  · rename_i hc
    simp only [hc, if_true]
  · exact absurd h (by simp)

deriving instance DecidableEq for Except

/-- Offset carried by a successful append result. -/
def okOffset : Except StreamError StreamMessage → Nat
  | Except.ok m => m.offset
  | Except.error _ => 0

/-- Small message literals used to instantiate theorems with hypotheses. -/
def mA : StreamMessage :=
  { id := "a", offset := 0, msgType := MessageType.text, payload := "x",
    senderId := "s1", recipientId := "r1", timestamp := "t1" }

/-- Second sample message. -/
def mB : StreamMessage :=
  { id := "b", offset := 0, msgType := MessageType.text, payload := "yy",
    senderId := "s1", recipientId := "r1", timestamp := "t2" }

/-- Third sample message. -/
def mC : StreamMessage :=
  { id := "c", offset := 0, msgType := MessageType.file, payload := "zzz",
    senderId := "s2", recipientId := "r1", timestamp := "t3" }

/-- C1: for every sequence of successful calls to the stream store's
append, the assigned offsets form a strictly increasing sequence with no
gaps: the results are exactly startup_offset + 1, startup_offset + 2, ...
so each successful append returns an offset one greater than the
previous one and the first is one greater than the offset recovered at
startup. -/
theorem append_offsets_consecutive (s : StreamState) (ms : List StreamMessage)
    (h : ∀ r ∈ (runAppends s ms).1, r.isOk = true) :
    ((runAppends s ms).1).map okOffset = List.range' (s.currentOffset + 1) ms.length := by
  induction ms generalizing s with
  | nil => simp [runAppends]
  | cons m ms ih =>
    simp only [runAppends, List.map_cons, List.length_cons] at h ⊢
    have hm : (append s m).1.isOk = true := h _ (List.mem_cons_self _ _)
    have hrest : ∀ r ∈ (runAppends (append s m).2 ms).1, r.isOk = true :=
      fun r hr => h r (List.mem_cons_of_mem _ hr)
    obtain ⟨m', hm'⟩ : ∃ m', (append s m).1 = Except.ok m' := by
      cases hh : (append s m).1 with
      | ok v => exact ⟨v, rfl⟩
      | error e => rw [hh] at hm; simp [Except.isOk, Except.toBool] at hm
    have hoff := append_ok_offset s m m' hm'
    have hco := append_currentOffset s m
    rw [hm', okOffset, hoff]
    rw [ih _ hrest, hco]
    rfl

/-- C1 witness: three fresh-id appends onto the startup state succeed and
yield offsets 1, 2, 3. -/
theorem append_offsets_consecutive_witness :
    (∀ r ∈ (runAppends StreamState.init [mA, mB, mC]).1, r.isOk = true) ∧
    ((runAppends StreamState.init [mA, mB, mC]).1).map okOffset = [1, 2, 3] := by
  have h := append_offsets_consecutive StreamState.init [mA, mB, mC] (by decide)
  exact ⟨by decide, by simpa using h⟩

/-- C10: a failed append still consumes an offset.  When the insert
inside append fails, the offset counter has already been advanced by one
and is not rolled back, while total_bytes, the ETag, the table and the
broadcast trace are unchanged; the next successful append therefore
returns (and stores) an offset two greater than the last successfully
stored row. -/
theorem failed_append_consumes_offset (s : StreamState) (m : StreamMessage) (e : StreamError)
    (he : (append s m).1 = Except.error e) :
    (append s m).2.currentOffset = s.currentOffset + 1
    ∧ (append s m).2.totalBytes = s.totalBytes
    ∧ (append s m).2.etag = s.etag
    ∧ (append s m).2.messages = s.messages
    ∧ (append s m).2.broadcasts = s.broadcasts
    ∧ (∀ m2 m2', (append (append s m).2 m2).1 = Except.ok m2' →
        m2'.offset = s.currentOffset + 2)
    ∧ (∀ lastRow, s.messages.getLast? = some lastRow → lastRow.offset = s.currentOffset →
        ∀ m2 m2', (append (append s m).2 m2).1 = Except.ok m2' →
          m2'.offset = lastRow.offset + 2) := by
  have hst := append_error_state s m e he
  rw [hst]
  refine ⟨rfl, rfl, rfl, rfl, rfl, ?_, ?_⟩
  · intro m2 m2' h2
    simpa using append_ok_offset _ m2 m2' h2
  · intro lastRow _ hoff m2 m2' h2
    rw [hoff]
    simpa using append_ok_offset _ m2 m2' h2

/-- C10 witness: after one successful append of mA, appending mA again
fails on the duplicate id, consumes offset 2, and the next successful
append (mB) gets offset 3 = 1 + 2. -/
theorem failed_append_consumes_offset_witness :
    (append (append StreamState.init mA).2 mA).1
        = Except.error (StreamError.StorageError "UNIQUE constraint failed")
    ∧ (append (append StreamState.init mA).2 mA).2.currentOffset
        = (append StreamState.init mA).2.currentOffset + 1
    ∧ (append (append StreamState.init mA).2 mA).2.etag = (append StreamState.init mA).2.etag
    ∧ (∀ m2', (append (append (append StreamState.init mA).2 mA).2 mB).1 = Except.ok m2' →
        m2'.offset = 3) := by
  have h := failed_append_consumes_offset (append StreamState.init mA).2 mA
    (StreamError.StorageError "UNIQUE constraint failed") (by decide)
  exact ⟨by decide, h.1, h.2.2.1, fun m2' hm2 => h.2.2.2.2.2.1 mB m2' hm2⟩

/-- C5 (amended): the ETag invariant under successful operations.  If the
state's etag currently equals generate_etag(current_offset, total_bytes)
then after a successful append, and after any delete_message, the etag
again equals generate_etag of the two counters, and the etag changed if
and only if the pair (current_offset, total_bytes) changed.  (A failed
append breaks this: see the counterexample.) -/
theorem etag_function_of_counters (s : StreamState)
    (hs : s.etag = generate_etag s.currentOffset s.totalBytes) :
    (∀ m m', (append s m).1 = Except.ok m' →
      ((append s m).2.etag
          = generate_etag (append s m).2.currentOffset (append s m).2.totalBytes
        ∧ ((append s m).2.etag = s.etag ↔
            ((append s m).2.currentOffset = s.currentOffset
             ∧ (append s m).2.totalBytes = s.totalBytes))))
    ∧ (∀ id, ((delete_message s id).2.etag
          = generate_etag (delete_message s id).2.currentOffset (delete_message s id).2.totalBytes
        ∧ ((delete_message s id).2.etag = s.etag ↔
            ((delete_message s id).2.currentOffset = s.currentOffset
             ∧ (delete_message s id).2.totalBytes = s.totalBytes)))) := by
  constructor
  · intro m m' hok
    by_cases hc : (s.messages.any fun r => r.id == m.id || r.offset == s.currentOffset + 1) = true
    · rw [append, if_pos hc] at hok
      exact absurd hok (by simp)
    · rw [append, if_neg hc] at hok ⊢
      dsimp only
      refine ⟨rfl, ?_⟩
      constructor
      · intro heq
        rw [hs] at heq
        exact absurd (generate_etag_inj heq).1 (by omega)
      · intro hpair
        exact absurd hpair.1 (by omega)
  · intro id
    cases hfind : s.messages.find? (fun r => r.id == id) with
    | none =>
      have h1 : delete_message s id = (false, s) := by
        simp only [delete_message, hfind]
      rw [h1]
      exact ⟨hs, by simp⟩
    | some row =>
      have h1 : delete_message s id
          = (true, { s with
              messages := s.messages.filter (fun r => !(r.id == id)),
              totalBytes := s.totalBytes - row.byteSize,
              etag := generate_etag s.currentOffset (s.totalBytes - row.byteSize) }) := by
        simp only [delete_message, hfind]
      rw [h1]
      dsimp only
      refine ⟨rfl, ?_⟩
      constructor
      · intro heq
        rw [hs] at heq
        exact ⟨rfl, (generate_etag_inj heq).2⟩
      · intro hpair
        rw [hs]
        exact congrArg (generate_etag s.currentOffset) hpair.2

/-- C5 witness: the startup state satisfies the etag invariant, and a
successful append of mA preserves it while changing the etag. -/
theorem etag_function_of_counters_witness :
    StreamState.init.etag = generate_etag StreamState.init.currentOffset StreamState.init.totalBytes
    ∧ (append StreamState.init mA).2.etag
        = generate_etag (append StreamState.init mA).2.currentOffset
            (append StreamState.init mA).2.totalBytes
    ∧ (append StreamState.init mA).2.etag ≠ StreamState.init.etag := by
  have h := etag_function_of_counters StreamState.init rfl
  have hm := h.1 mA { mA with offset := 1 } (by decide)
  refine ⟨rfl, hm.1, fun heq => ?_⟩
  have := (hm.2.mp heq).1
  simp [append, StreamState.init, mA] at this

/-- C5 counterexample: the claim quantifies over any append, but a failed
append (duplicate id) advances current_offset while leaving the etag as
it was, so the etag does not change when the pair changes and is no
longer a function of the pair. -/
theorem etag_claim_counterexample :
    (append (append StreamState.init mA).2 mA).1
        = Except.error (StreamError.StorageError "UNIQUE constraint failed")
    ∧ (append (append StreamState.init mA).2 mA).2.currentOffset
        ≠ (append StreamState.init mA).2.currentOffset
    ∧ (append (append StreamState.init mA).2 mA).2.etag = (append StreamState.init mA).2.etag
    ∧ (append (append StreamState.init mA).2 mA).2.etag
        ≠ generate_etag (append (append StreamState.init mA).2 mA).2.currentOffset
            (append (append StreamState.init mA).2 mA).2.totalBytes := by
  decide

/-- Sample messages with numeric ids used for the hundred-append scenario. -/
def msgs100 : List StreamMessage :=
  (List.range 100).map (fun i =>
    { id := toString i, offset := 0, msgType := MessageType.text, payload := "p",
      senderId := "s1", recipientId := "r1", timestamp := "t" })

/-- State reached after a hundred successful appends onto startup. -/
def state100 : StreamState := (runAppends StreamState.init msgs100).2

/-- C6 (amended): get_range reports has_more exactly when the returned
end_offset is strictly below the requested end clamped to the end of the
stream, i.e. below min(range.end, current_offset) when an explicit end is
given and below current_offset otherwise; the HTTP layer serves 206
exactly when has_more.  In particular after 100 appends a read from
offset 0 with limit 30 reports end_offset 30, total 100 and has_more,
served as 206. -/
theorem get_range_has_more (s : StreamState) (range : OffsetRange) (limit : Nat) :
    ((get_range s range limit).hasMore = true ↔
      (get_range s range limit).endOffset
        < min (range.stop.getD s.currentOffset) s.currentOffset)
    ∧ range_status (get_range s range limit)
        = (if (get_range s range limit).hasMore then 206 else 200)
    ∧ ((get_range state100 { start := 0, stop := none } 30).endOffset = 30
        ∧ (get_range state100 { start := 0, stop := none } 30).totalOffset = 100
        ∧ (get_range state100 { start := 0, stop := none } 30).hasMore = true
        ∧ range_status (get_range state100 { start := 0, stop := none } 30) = 206) := by
  refine ⟨?_, rfl, ?_⟩
  · simp [get_range]
  · set_option maxRecDepth 100000 in decide

/-- C6 counterexample: with one message in the stream (current offset 1)
and an explicit range end of 5, the code clamps the requested end to the
current offset, so has_more is false even though the returned end_offset
1 is strictly below the requested end 5 as the claim reads it. -/
theorem get_range_claim_counterexample :
    (get_range (append StreamState.init mA).2 { start := 0, stop := some 5 } 10).hasMore = false
    ∧ (get_range (append StreamState.init mA).2 { start := 0, stop := some 5 } 10).endOffset
        < 5 := by
  decide

/-- Filtering out the rows matched by a predicate removes exactly the
rows counted by that predicate. -/
theorem length_filter_not_countP (l : List MessageRow) (p : MessageRow → Bool) :
    (l.filter (fun r => !(p r))).length + l.countP p = l.length := by
  induction l with
  | nil => simp
  | cons x xs ih =>
    cases hx : p x <;> simp [List.filter_cons, List.countP_cons, hx] <;> omega

/-- C7: delete_message on an existing id returns true, removes exactly
the row with that id, decrements total_bytes by that row's recorded
byte_size, recomputes the ETag from the unchanged offset counter and the
new byte total, and leaves current_offset (and the broadcast trace)
unchanged; on a missing id it returns false and changes nothing. -/
theorem delete_message_spec (s : StreamState) (id : String) :
    (∀ row, s.messages.find? (fun r => r.id == id) = some row →
      ((delete_message s id).1 = true
        ∧ (delete_message s id).2.messages = s.messages.filter (fun r => !(r.id == id))
        ∧ (s.messages.countP (fun r => r.id == id) = 1 →
            (delete_message s id).2.messages.length + 1 = s.messages.length)
        ∧ (row.byteSize ≤ s.totalBytes →
            (delete_message s id).2.totalBytes + row.byteSize = s.totalBytes)
        ∧ (delete_message s id).2.etag
            = generate_etag s.currentOffset (delete_message s id).2.totalBytes
        ∧ (delete_message s id).2.currentOffset = s.currentOffset
        ∧ (delete_message s id).2.broadcasts = s.broadcasts))
    ∧ (s.messages.find? (fun r => r.id == id) = none →
        ((delete_message s id).1 = false ∧ (delete_message s id).2 = s)) := by
  constructor
  · intro row hfind
    have h1 : delete_message s id
        = (true, { s with
            messages := s.messages.filter (fun r => !(r.id == id)),
            totalBytes := s.totalBytes - row.byteSize,
            etag := generate_etag s.currentOffset (s.totalBytes - row.byteSize) }) := by
      simp only [delete_message, hfind]
    rw [h1]
    dsimp only
    refine ⟨rfl, rfl, ?_, ?_, rfl, rfl, rfl⟩
    · intro hcount
      have hsum := length_filter_not_countP s.messages (fun r => r.id == id)
      omega
    · intro hb
      omega
  · intro hfind
    have h1 : delete_message s id = (false, s) := by
      simp only [delete_message, hfind]
    rw [h1]
    exact ⟨rfl, rfl⟩

/-- Row stored by appending mA onto the startup state. -/
def rowA : MessageRow :=
  { id := "a", offset := 1, msgType := MessageType.text, payload := "x",
    senderId := "s1", recipientId := "r1", timestamp := "t1", byteSize := 1 }

/-- C7 witness: deleting the single message of a one-message stream
succeeds, empties the table, restores total_bytes to 0, keeps
current_offset at 1 and recomputes the etag; deleting a missing id
changes nothing. -/
theorem delete_message_spec_witness :
    (append StreamState.init mA).2.messages.find? (fun r => r.id == "a") = some rowA
    ∧ (delete_message (append StreamState.init mA).2 "a").1 = true
    ∧ (delete_message (append StreamState.init mA).2 "a").2.currentOffset
        = (append StreamState.init mA).2.currentOffset
    ∧ (delete_message (append StreamState.init mA).2 "a").2.totalBytes + 1
        = (append StreamState.init mA).2.totalBytes := by
  have h := delete_message_spec (append StreamState.init mA).2 "a"
  have hr := h.1 rowA (by decide)
  exact ⟨by decide, hr.1, hr.2.2.2.2.2.1, hr.2.2.2.1 (by decide)⟩

/-! ## Resumable upload store (src-tauri/src/tus/storage.rs)

The FileStorage struct guards a HashMap of upload records and a
directory tree.  We embed it as one state record: the record table and
the metadata sidecars become association lists keyed by upload id, the
in-flight part files and the finalized files become association lists
from name to byte content, and the configured maximum size becomes a
field.  File bytes are Nat values below 256; seek-then-write past the
end of a file zero-fills the gap, as a sparse file does.  The SHA-256 /
base64 digest of the checksum extension comes from library crates, not
from this repository, so it is passed in as an opaque digest function;
write_chunk compares the header against the string sha256-space-digest
exactly as the source formats it. -/

/-- Upload record (tus/types.rs TusUpload). -/
structure TusUpload where
  id : String
  length : Nat
  offset : Nat
  metadata : List (String × String)
  createdAt : String
  updatedAt : String
  isComplete : Bool
  finalPath : Option String
deriving DecidableEq, Repr

/-- Fresh record as built by TusUpload::new. -/
def TusUpload.new (id : String) (length : Nat) (metadata : List (String × String))
    (now : String) : TusUpload :=
  { id := id, length := length, offset := 0, metadata := metadata,
    createdAt := now, updatedAt := now, isComplete := false, finalPath := none }

/-- Error enum of the upload store (tus/types.rs TusError; io::Error payload dropped). -/
inductive TusError where
  | NotFound (id : String)
  | InvalidOffset (expected actual : Nat)
  | FileTooLarge (size max : Nat)
  | InvalidContentType
  | MissingHeader (name : String)
  | IoError
  | StorageError (msg : String)
  | ChecksumMismatch
deriving DecidableEq, Repr

/-- HTTP status assigned to each error by TusErrorResponse::into_response
(tus/server.rs): the catch-all arm covers IoError and StorageError. -/
def tus_status : TusError → Nat
  | TusError.NotFound _ => 404
  | TusError.InvalidOffset _ _ => 409
  | TusError.FileTooLarge _ _ => 413
  | TusError.InvalidContentType => 415
  | TusError.MissingHeader _ => 400
  | TusError.ChecksumMismatch => 417
  | _ => 500

/-- Lookup in an association list (HashMap get / metadata get). -/
def alookup {α : Type} : List (String × α) → String → Option α
  | [], _ => none
  | e :: t, k => if e.1 == k then some e.2 else alookup t k

/-- Replace the value stored under an existing key. -/
def aupdate {α : Type} (l : List (String × α)) (k : String) (v : α) : List (String × α) :=
  l.map (fun e => if e.1 == k then (e.1, v) else e)

/-- HashMap insert: replace when present, append when absent. -/
def ainsert {α : Type} (l : List (String × α)) (k : String) (v : α) : List (String × α) :=
  if l.any (fun e => e.1 == k) then aupdate l k v else l ++ [(k, v)]

/-- HashMap remove. -/
def aremove {α : Type} (l : List (String × α)) (k : String) : List (String × α) :=
  l.filter (fun e => !(e.1 == k))

/-- HashMap insert for the upload table (keyed by the record's own id). -/
def insertUpload (l : List TusUpload) (u : TusUpload) : List TusUpload :=
  if l.any (fun v => v.id == u.id) then l.map (fun v => if v.id == u.id then u else v)
  else l ++ [u]

/-- In-place update of the record with the given id (HashMap get_mut). -/
def updateUpload (l : List TusUpload) (id : String) (f : TusUpload → TusUpload) :
    List TusUpload :=
  l.map (fun v => if v.id == id then f v else v)

/-- State of FileStorage: the record table, the part files and sidecars
under the in-flight directory, the finalized files, and the configured
maximum upload size. -/
structure TusState where
  maxSize : Nat
  uploads : List TusUpload
  files : List (String × List Nat)
  sidecars : List (String × TusUpload)
  complete : List (String × List Nat)
deriving DecidableEq, Repr

/-- Seek to an offset and write: bytes before the offset survive, a gap
beyond the current end is zero-filled, the data overwrites in place, and
bytes after the written span survive. -/
def writeAt (content : List Nat) (off : Nat) (data : List Nat) : List Nat :=
  content.take off ++ List.replicate (off - content.length) 0 ++ data
    ++ content.drop (off + data.length)

/-- Rust char::is_alphanumeric (Unicode Alphabetic or Numeric property),
tabulated over the Basic Latin and Latin-1 Supplement blocks; code
points above U+00FF lie outside the modelled fragment of Unicode and are
mapped to false. -/
def rustIsAlphanumeric (c : Char) : Bool :=
  let n := c.toNat
  (48 ≤ n && n ≤ 57) || (65 ≤ n && n ≤ 90) || (97 ≤ n && n ≤ 122) ||
  n == 170 || n == 178 || n == 179 || n == 181 || n == 185 || n == 186 ||
  (188 ≤ n && n ≤ 190) || (192 ≤ n && n ≤ 214) || (216 ≤ n && n ≤ 246) ||
  (248 ≤ n && n ≤ 255)

/-- Rust char::is_whitespace (Unicode White_Space property), tabulated
over the same blocks. -/
def rustIsWhitespace (c : Char) : Bool :=
  let n := c.toNat
  (9 ≤ n && n ≤ 13) || n == 32 || n == 133 || n == 160

/-- Split a character list at every slash. -/
def splitSlashAux : List Char → List Char → List (List Char)
  | [], acc => [acc.reverse]
  | c :: cs, acc =>
    if c = '/' then acc.reverse :: splitSlashAux cs [] else splitSlashAux cs (c :: acc)

/-- Rust Path::file_name on a Unix-style path: the last normal component
of the path, none when the path is empty or ends in a parent-directory
component; current-directory components and empty components are
skipped. -/
def file_name (path : String) : Option String :=
  match ((splitSlashAux path.data []).filter
      (fun c => !(c == ([] : List Char)) && !(c == ['.']))).getLast? with
  | none => none
  | some last => if last == ['.', '.'] then none else some (String.mk last)

/-- Characters kept by the sanitizer's filter. -/
def keepChar (c : Char) : Bool :=
  rustIsAlphanumeric c || c == '.' || c == '-' || c == '_' || c == ' '

/-- Rust str::trim: drop leading and trailing whitespace. -/
def trimChars (l : List Char) : List Char :=
  ((l.dropWhile rustIsWhitespace).reverse.dropWhile rustIsWhitespace).reverse

/-- Filename sanitizer (tus/storage.rs sanitize_filename): take the last
path component (or the literal unknown), keep only alphanumeric
characters and period, dash, underscore and space, then trim. -/
def sanitize_filename (filename : String) : String :=
  String.mk (trimChars (((file_name filename).getD "unknown").data.filter keepChar))

/-- Finalized name of an upload: the sanitized filename metadata entry,
with id.bin as the fallback. -/
def final_name (u : TusUpload) (id : String) : String :=
  sanitize_filename ((alookup u.metadata "filename").getD (id ++ ".bin"))

/-- Create a new upload (FileStorage::create_upload): reject a length
above the configured maximum, else create an empty part file, write the
sidecar and insert the fresh record. -/
def create_upload (st : TusState) (id : String) (length : Nat)
    (metadata : List (String × String)) (now : String) :
    Except TusError TusUpload × TusState :=
  if st.maxSize < length then
    (Except.error (TusError.FileTooLarge length st.maxSize), st)
  else
    (Except.ok (TusUpload.new id length metadata now),
      { st with
        files := ainsert st.files id []
        sidecars := ainsert st.sidecars id (TusUpload.new id length metadata now)
        uploads := insertUpload st.uploads (TusUpload.new id length metadata now) })

/-- Record final_path on an upload record (the last step of finalize). -/
def stampFinal (p : String) (v : TusUpload) : TusUpload :=
  { v with finalPath := some p }

theorem stampFinal_id (p : String) : ∀ v, (stampFinal p v).id = v.id := fun _ => rfl

/-- Finalize an upload (FileStorage::finalize_upload): rename the part
file into the completed directory under the sanitized name (the base
directory prefix is elided), drop the sidecar, and record final_path on
the upload.  A missing part file is the rename's io error. -/
def finalize_upload (st : TusState) (id : String) : Except TusError String × TusState :=
  match st.uploads.find? (fun v => v.id == id) with
  | none => (Except.error (TusError.NotFound id), st)
  | some u =>
    match alookup st.files id with
    | none => (Except.error TusError.IoError, st)
    | some content =>
      (Except.ok ("complete/" ++ final_name u id),
        { st with
          files := aremove st.files id
          complete := ainsert st.complete (final_name u id) content
          sidecars := aremove st.sidecars id
          uploads := updateUpload st.uploads id
            (stampFinal ("complete/" ++ final_name u id)) })

/-- Checksum guard of write_chunk: a supplied Upload-Checksum header must
equal sha256-space-digest of the chunk. -/
def checksum_mismatch (hash : List Nat → String) (data : List Nat) : Option String → Bool
  | some expected => !(("sha256 " ++ hash data) == expected)
  | none => false

/-- Advance an upload record after a successful write: move the offset,
refresh updated_at, and set is_complete when the new offset reaches the
declared length (the flag is never cleared). -/
def advanceRecord (newOffset : Nat) (now : String) (v : TusUpload) : TusUpload :=
  { v with
    offset := newOffset
    updatedAt := now
    isComplete := decide (v.length ≤ newOffset) || v.isComplete }

theorem advanceRecord_id (newOffset : Nat) (now : String) :
    ∀ v, (advanceRecord newOffset now v).id = v.id := fun _ => rfl

/-- State right after the seek-write-flush and the record update of
write_chunk, before finalization or sidecar save. -/
def writeState (st : TusState) (id : String) (offset : Nat) (data : List Nat)
    (now : String) (content : List Nat) : TusState :=
  { st with
    files := aupdate st.files id (writeAt content offset data)
    uploads := updateUpload st.uploads id (advanceRecord (offset + data.length) now) }

/-- Tail of write_chunk after the guards: write the bytes, advance the
record, then either finalize (when the record is now complete) or save
the refreshed sidecar. -/
def writeFinish (st : TusState) (id : String) (u : TusUpload) (offset : Nat)
    (data : List Nat) (now : String) (content : List Nat) :
    Except TusError Nat × TusState :=
  if decide (u.length ≤ offset + data.length) || u.isComplete then
    match finalize_upload (writeState st id offset data now content) id with
    | (Except.error e, st2) => (Except.error e, st2)
    | (Except.ok _, st2) => (Except.ok (offset + data.length), st2)
  else
    match (writeState st id offset data now content).uploads.find? (fun v => v.id == id) with
    | none => (Except.error (TusError.NotFound id), writeState st id offset data now content)
    | some u2 =>
      (Except.ok (offset + data.length),
        { writeState st id offset data now content with
          sidecars := ainsert st.sidecars id u2 })

/-- Write one chunk (FileStorage::write_chunk).  Guards run in source
order: record lookup, offset equality, checksum verification (before any
file access), then the part file is opened; only then is anything
mutated. -/
def write_chunk (hash : List Nat → String) (st : TusState) (id : String) (offset : Nat)
    (data : List Nat) (checksum : Option String) (now : String) :
    Except TusError Nat × TusState :=
  match st.uploads.find? (fun v => v.id == id) with
  | none => (Except.error (TusError.NotFound id), st)
  | some u =>
    if offset ≠ u.offset then
      (Except.error (TusError.InvalidOffset u.offset offset), st)
    else if checksum_mismatch hash data checksum then
      (Except.error TusError.ChecksumMismatch, st)
    else
      match alookup st.files id with
      | none => (Except.error TusError.IoError, st)
      | some content => writeFinish st id u offset data now content

/-- Delete an upload (FileStorage::delete_upload): remove the part file,
the sidecar and the record; each removal is idempotent and the operation
always succeeds. -/
def delete_upload (st : TusState) (id : String) : Except TusError Unit × TusState :=
  (Except.ok (),
    { st with
      files := aremove st.files id
      sidecars := aremove st.sidecars id
      uploads := st.uploads.filter (fun v => !(v.id == id)) })

/-! ## Facts about the association-list operations -/

theorem alookup_aupdate {α : Type} (l : List (String × α)) (k : String) (v : α) (c : α)
    (h : alookup l k = some c) : alookup (aupdate l k v) k = some v := by
  induction l with
  | nil => simp [alookup] at h
  | cons e t ih =>
    cases he : e.1 == k with
    | true => simp [alookup, aupdate, he]
    | false =>
      simp only [alookup, he, if_false, Bool.false_eq_true] at h
      simp only [aupdate, List.map_cons, he, Bool.false_eq_true, if_false, alookup]
      have ht := ih h
      simp only [aupdate] at ht
      exact ht

theorem find?_updateUpload (l : List TusUpload) (id : String) (f : TusUpload → TusUpload)
    (hid : ∀ v, (f v).id = v.id) (u : TusUpload)
    (h : l.find? (fun v => v.id == id) = some u) :
    (updateUpload l id f).find? (fun v => v.id == id) = some (f u) := by
  induction l with
  | nil => simp at h
  | cons x t ih =>
    cases hx : x.id == id with
    | true =>
      simp only [List.find?_cons, hx] at h
      cases h
      simp only [updateUpload, List.map_cons, hx, if_true, List.find?_cons, hid, hx]
    | false =>
      simp only [List.find?_cons, hx] at h
      have ht := ih h
      simp only [updateUpload] at ht ⊢
      simp only [List.map_cons, hx, Bool.false_eq_true, if_false, List.find?_cons]
      exact ht

theorem map_id_updateUpload (l : List TusUpload) (id : String) (f : TusUpload → TusUpload)
    (hid : ∀ v, (f v).id = v.id) :
    (updateUpload l id f).map TusUpload.id = l.map TusUpload.id := by
  unfold updateUpload
  rw [List.map_map]
  apply List.map_congr_left
  intro v _
  cases hx : v.id == id with
  | true =>
    have hv : v.id = id := by simpa using hx
    simp [hv, hid]
  | false =>
    have hv : ¬(v.id = id) := by simpa using hx
    simp [hv]

theorem mem_updateUpload (l : List TusUpload) (id : String) (f : TusUpload → TusUpload)
    (v : TusUpload) (h : v ∈ updateUpload l id f) :
    ∃ w ∈ l, v = if (w.id == id) = true then f w else w := by
  rcases List.mem_map.mp h with ⟨w, hw, hv⟩
  exact ⟨w, hw, hv.symm⟩

theorem mem_insertUpload (l : List TusUpload) (u v : TusUpload) (h : v ∈ insertUpload l u) :
    v = u ∨ v ∈ l := by
  unfold insertUpload at h
  split at h
  · rcases List.mem_map.mp h with ⟨w, hw, hv⟩
    by_cases hw2 : w.id = u.id
    · rw [if_pos (by simpa using hw2)] at hv
      exact Or.inl hv.symm
    · rw [if_neg (by simpa using hw2)] at hv
      exact Or.inr (hv ▸ hw)
  · rcases List.mem_append.mp h with h1 | h1
    · exact Or.inr h1
    · simp at h1
      exact Or.inl h1

theorem nodup_insertUpload (l : List TusUpload) (u : TusUpload)
    (h : (l.map TusUpload.id).Nodup) :
    ((insertUpload l u).map TusUpload.id).Nodup := by
  unfold insertUpload
  split
  · have heq : (l.map (fun v => if v.id == u.id then u else v)).map TusUpload.id
        = l.map TusUpload.id := by
      rw [List.map_map]
      apply List.map_congr_left
      intro v _
      by_cases hv : v.id = u.id
      · simp [hv]
      · simp [hv]
    rw [heq]
    exact h
  · rename_i hany
    rw [List.map_append, List.nodup_append]
    refine ⟨h, by simp, ?_⟩
    intro x hx hxu
    simp only [List.map_cons, List.map_nil, List.mem_singleton] at hxu
    rcases List.mem_map.mp hx with ⟨w, hw, hwx⟩
    apply hany
    rw [List.any_eq_true]
    refine ⟨w, hw, ?_⟩
    rw [beq_iff_eq, hwx, hxu]

theorem find?_eq_of_nodup (l : List TusUpload) (id : String) (u w : TusUpload)
    (hnd : (l.map TusUpload.id).Nodup)
    (hf : l.find? (fun v => v.id == id) = some u)
    (hw : w ∈ l) (hwid : w.id = id) : w = u := by
  induction l with
  | nil => simp at hw
  | cons x t ih =>
    simp only [List.map_cons, List.nodup_cons] at hnd
    cases hx : x.id == id with
    | true =>
      simp only [List.find?_cons, hx] at hf
      have hxu : x = u := by injection hf
      rcases List.mem_cons.mp hw with h1 | hwt
      · exact h1.trans hxu
      · exfalso
        apply hnd.1
        have hxid : x.id = id := by simpa using hx
        rw [hxid, ← hwid]
        exact List.mem_map_of_mem _ hwt
    | false =>
      simp only [List.find?_cons, hx] at hf
      rcases List.mem_cons.mp hw with h1 | hwt
      · exfalso
        have hwb : (w.id == id) = true := by simpa using hwid
        rw [h1] at hwb
        simp [hwb] at hx
      · exact ih hnd.2 hf hwt

/-! ## Outcomes of write_chunk -/

theorem finalize_upload_eq (st : TusState) (id : String) (u : TusUpload) (content : List Nat)
    (hu : st.uploads.find? (fun v => v.id == id) = some u)
    (hf : alookup st.files id = some content) :
    finalize_upload st id
      = (Except.ok ("complete/" ++ final_name u id),
         { st with
           files := aremove st.files id
           complete := ainsert st.complete (final_name u id) content
           sidecars := aremove st.sidecars id
           uploads := updateUpload st.uploads id
             (stampFinal ("complete/" ++ final_name u id)) }) := by
  unfold finalize_upload
  rw [hu]
  dsimp only
  rw [hf]

theorem write_chunk_not_found (hash : List Nat → String) (st : TusState) (id : String)
    (offset : Nat) (data : List Nat) (checksum : Option String) (now : String)
    (hu : st.uploads.find? (fun v => v.id == id) = none) :
    write_chunk hash st id offset data checksum now
      = (Except.error (TusError.NotFound id), st) := by
  unfold write_chunk
  rw [hu]

theorem write_chunk_wrong_offset (hash : List Nat → String) (st : TusState) (id : String)
    (offset : Nat) (data : List Nat) (checksum : Option String) (now : String)
    (u : TusUpload) (hu : st.uploads.find? (fun v => v.id == id) = some u)
    (hoff : offset ≠ u.offset) :
    write_chunk hash st id offset data checksum now
      = (Except.error (TusError.InvalidOffset u.offset offset), st) := by
  unfold write_chunk
  rw [hu]
  dsimp only
  rw [if_pos hoff]

theorem write_chunk_checksum_fail (hash : List Nat → String) (st : TusState) (id : String)
    (data : List Nat) (checksum : Option String) (now : String)
    (u : TusUpload) (hu : st.uploads.find? (fun v => v.id == id) = some u)
    (hchk : checksum_mismatch hash data checksum = true) :
    write_chunk hash st id u.offset data checksum now
      = (Except.error TusError.ChecksumMismatch, st) := by
  unfold write_chunk
  rw [hu]
  dsimp only
  rw [if_neg (by simp), if_pos hchk]

theorem write_chunk_success (hash : List Nat → String) (st : TusState) (id : String)
    (data : List Nat) (checksum : Option String) (now : String)
    (u : TusUpload) (content : List Nat)
    (hu : st.uploads.find? (fun v => v.id == id) = some u)
    (hchk : checksum_mismatch hash data checksum = false)
    (hf : alookup st.files id = some content) :
    (write_chunk hash st id u.offset data checksum now).1
        = Except.ok (u.offset + data.length)
    ∧ ∃ u', (write_chunk hash st id u.offset data checksum now).2.uploads.find?
          (fun v => v.id == id) = some u'
        ∧ u'.offset = u.offset + data.length
        ∧ u'.length = u.length
        ∧ u'.isComplete = (decide (u.length ≤ u.offset + data.length) || u.isComplete)
        ∧ (u'.isComplete = true → u'.finalPath.isSome = true)
    ∧ ((write_chunk hash st id u.offset data checksum now).2.uploads
          = updateUpload (updateUpload st.uploads id (advanceRecord (u.offset + data.length) now))
              id (stampFinal ("complete/"
                ++ final_name (advanceRecord (u.offset + data.length) now u) id))
        ∨ ((write_chunk hash st id u.offset data checksum now).2.uploads
              = updateUpload st.uploads id (advanceRecord (u.offset + data.length) now)
           ∧ (decide (u.length ≤ u.offset + data.length) || u.isComplete) = false)) := by
  have hwc : write_chunk hash st id u.offset data checksum now
      = writeFinish st id u u.offset data now content := by
    unfold write_chunk
    rw [hu]
    dsimp only
    rw [if_neg (by simp), if_neg (by simp [hchk]), hf]
  have hu1 : (writeState st id u.offset data now content).uploads.find?
      (fun v => v.id == id)
      = some (advanceRecord (u.offset + data.length) now u) := by
    unfold writeState
    dsimp only
    exact find?_updateUpload st.uploads id (advanceRecord (u.offset + data.length) now)
      (fun v => rfl) u hu
  have hf1 : alookup (writeState st id u.offset data now content).files id
      = some (writeAt content u.offset data) := by
    unfold writeState
    dsimp only
    exact alookup_aupdate st.files id (writeAt content u.offset data) content hf
  rw [hwc]
  unfold writeFinish
  by_cases hcomplete : (decide (u.length ≤ u.offset + data.length) || u.isComplete) = true
  · rw [if_pos hcomplete]
    rw [finalize_upload_eq _ _ _ _ hu1 hf1]
    dsimp only
    refine ⟨rfl, ?_⟩
    refine ⟨_, find?_updateUpload (writeState st id u.offset data now content).uploads id
      (stampFinal ("complete/"
        ++ final_name (advanceRecord (u.offset + data.length) now u) id))
      (stampFinal_id _) (advanceRecord (u.offset + data.length) now u) hu1,
      rfl, rfl, rfl, fun _ => rfl, Or.inl rfl⟩
  · rw [if_neg hcomplete]
    rw [hu1]
    dsimp only
    refine ⟨rfl, ?_⟩
    refine ⟨advanceRecord (u.offset + data.length) now u, hu1, rfl, rfl, rfl,
      fun hc => absurd hc hcomplete, Or.inr ⟨rfl, by simpa using hcomplete⟩⟩

theorem write_chunk_io_error (hash : List Nat → String) (st : TusState) (id : String)
    (data : List Nat) (checksum : Option String) (now : String)
    (u : TusUpload) (hu : st.uploads.find? (fun v => v.id == id) = some u)
    (hchk : checksum_mismatch hash data checksum = false)
    (hfile : alookup st.files id = none) :
    write_chunk hash st id u.offset data checksum now
      = (Except.error TusError.IoError, st) := by
  unfold write_chunk
  rw [hu]
  dsimp only
  rw [if_neg (by simp), if_neg (by simp [hchk]), hfile]

/-- C2: checksum handling of write_chunk.  For an existing upload, with
the offset precondition satisfied, a supplied Upload-Checksum that is
not the string sha256-space-digest of the chunk makes write_chunk fail
with ChecksumMismatch (mapped to HTTP 417) and leaves the whole store
state - in particular the record's offset, updated_at and is_complete
and the part file's bytes - unchanged, because the checksum is verified
before the seek and write; a matching checksum lets the write succeed. -/
theorem write_chunk_checksum_spec (hash : List Nat → String) (st : TusState) (id : String)
    (data : List Nat) (now : String) (u : TusUpload) (content : List Nat)
    (hu : st.uploads.find? (fun v => v.id == id) = some u)
    (hf : alookup st.files id = some content) :
    (∀ c, c ≠ "sha256 " ++ hash data →
      write_chunk hash st id u.offset data (some c) now
        = (Except.error TusError.ChecksumMismatch, st)
      ∧ tus_status TusError.ChecksumMismatch = 417)
    ∧ (write_chunk hash st id u.offset data (some ("sha256 " ++ hash data)) now).1
        = Except.ok (u.offset + data.length) := by
  constructor
  · intro c hc
    refine ⟨write_chunk_checksum_fail hash st id data (some c) now u hu ?_, rfl⟩
    simp only [checksum_mismatch, Bool.not_eq_eq_eq_not, Bool.not_false, beq_iff_eq]
    simpa using fun h => hc h.symm
  · have hchk : checksum_mismatch hash data (some ("sha256 " ++ hash data)) = false := by
      simp [checksum_mismatch]
    exact (write_chunk_success hash st id data _ now u content hu hchk hf).1

/-- Upload record used by the concrete upload-store witnesses. -/
def uW : TusUpload := TusUpload.new "u1" 10 [("filename", "a.bin")] "t0"

/-- Store state holding upload uW with an empty part file. -/
def stW : TusState :=
  { maxSize := 1000000, uploads := [uW], files := [("u1", [])],
    sidecars := [("u1", uW)], complete := [] }

/-- C2 witness: on stW a wrong checksum is rejected with 417 and the
state survives untouched, while the matching checksum succeeds. -/
theorem write_chunk_checksum_spec_witness :
    stW.uploads.find? (fun v => v.id == "u1") = some uW
    ∧ write_chunk (fun _ => "H") stW "u1" uW.offset [7] (some "bad") "t1"
        = (Except.error TusError.ChecksumMismatch, stW)
    ∧ tus_status TusError.ChecksumMismatch = 417
    ∧ (write_chunk (fun _ => "H") stW "u1" uW.offset [7] (some "sha256 H") "t1").1
        = Except.ok 1 := by
  have h := write_chunk_checksum_spec (fun _ => "H") stW "u1" [7] "t1" uW []
    (by decide) (by decide)
  have hbad := h.1 "bad" (by decide)
  exact ⟨by decide, hbad.1, hbad.2, h.2⟩

/-- C3: offset handling of write_chunk.  For an existing upload, a PATCH
whose Upload-Offset differs from the record's offset fails with
InvalidOffset carrying expected and actual (mapped to HTTP 409) and
leaves the whole store state unchanged; a successful PATCH returns
offset plus chunk length, which is never below the record's previous
offset, and moves the record to exactly that offset. -/
theorem write_chunk_offset_spec (hash : List Nat → String) (st : TusState) (id : String)
    (offset : Nat) (data : List Nat) (checksum : Option String) (now : String)
    (u : TusUpload) (hu : st.uploads.find? (fun v => v.id == id) = some u) :
    (offset ≠ u.offset →
      write_chunk hash st id offset data checksum now
        = (Except.error (TusError.InvalidOffset u.offset offset), st)
      ∧ tus_status (TusError.InvalidOffset u.offset offset) = 409)
    ∧ (∀ n st', write_chunk hash st id offset data checksum now = (Except.ok n, st') →
        u.offset ≤ n
        ∧ n = u.offset + data.length
        ∧ ∃ u', st'.uploads.find? (fun v => v.id == id) = some u' ∧ u'.offset = n) := by
  constructor
  · intro hoff
    exact ⟨write_chunk_wrong_offset hash st id offset data checksum now u hu hoff, rfl⟩
  · intro n st' hok
    by_cases hoff : offset = u.offset
    · subst hoff
      cases hchk : checksum_mismatch hash data checksum with
      | true =>
        rw [write_chunk_checksum_fail hash st id data checksum now u hu hchk] at hok
        simp at hok
      | false =>
        cases hfile : alookup st.files id with
        | none =>
          rw [write_chunk_io_error hash st id data checksum now u hu hchk hfile] at hok
          simp at hok
        | some content =>
          have hs := write_chunk_success hash st id data checksum now u content hu hchk hfile
          have h1 : Except.ok (u.offset + data.length) = (Except.ok n :
              Except TusError Nat) := by
            rw [← hs.1, hok]
          injection h1 with h1
          obtain ⟨u', hu', huo, _, _, _, _⟩ := hs.2
          have hst : (write_chunk hash st id u.offset data checksum now).2 = st' := by
            rw [hok]
          refine ⟨by omega, h1.symm, u', ?_, ?_⟩
          · rw [← hst]
            exact hu'
          · rw [huo, h1]
    · rw [write_chunk_wrong_offset hash st id offset data checksum now u hu hoff] at hok
      simp at hok

/-- C3 witness: on stW a PATCH at offset 5 is rejected with 409 leaving
the state unchanged, and the accepting PATCH at offset 0 moves the
record to offset 1 = 0 + 1. -/
theorem write_chunk_offset_spec_witness :
    stW.uploads.find? (fun v => v.id == "u1") = some uW
    ∧ write_chunk (fun _ => "H") stW "u1" 5 [7] none "t1"
        = (Except.error (TusError.InvalidOffset 0 5), stW)
    ∧ tus_status (TusError.InvalidOffset 0 5) = 409
    ∧ uW.offset ≤ 1 := by
  have h := write_chunk_offset_spec (fun _ => "H") stW "u1" 5 [7] none "t1" uW (by decide)
  have hw := h.1 (by decide)
  have h0 := write_chunk_offset_spec (fun _ => "H") stW "u1" 0 [7] none "t1" uW (by decide)
  have hsucc := h0.2 1 (write_chunk (fun _ => "H") stW "u1" 0 [7] none "t1").2 (by decide)
  exact ⟨by decide, hw.1, hw.2, hsucc.1⟩


/-- Upload-store invariant: record ids are unique (they key a HashMap),
and a complete record has final_path set and offset at least length. -/
def TusInv (st : TusState) : Prop :=
  (st.uploads.map TusUpload.id).Nodup ∧
  ∀ u ∈ st.uploads, u.isComplete = true → (u.finalPath.isSome = true ∧ u.length ≤ u.offset)

theorem mem_double_update (l : List TusUpload) (id : String) (f g : TusUpload → TusUpload)
    (hf : ∀ v, (f v).id = v.id) (v : TusUpload)
    (hv : v ∈ updateUpload (updateUpload l id f) id g) :
    ∃ w ∈ l, v = if (w.id == id) = true then g (f w) else w := by
  obtain ⟨w1, hw1, hv1⟩ := mem_updateUpload _ _ _ _ hv
  obtain ⟨w, hw, hv2⟩ := mem_updateUpload _ _ _ _ hw1
  refine ⟨w, hw, ?_⟩
  cases hwid : w.id == id with
  | true =>
    rw [if_pos hwid] at hv2
    rw [if_pos rfl]
    have hw1id : (w1.id == id) = true := by
      rw [hv2, hf w]
      exact hwid
    rw [if_pos hw1id] at hv1
    rw [hv1, hv2]
  | false =>
    rw [if_neg (by simp [hwid])] at hv2
    rw [if_neg (by simp [hwid])]
    have hw1id : (w1.id == id) = false := by
      rw [hv2]
      exact hwid
    rw [if_neg (by simp [hw1id])] at hv1
    rw [hv1, hv2]

/-- Case description of the upload table after write_chunk: either the
call failed and the table is untouched, or the call succeeded on record
u and the table is u advanced (and, when complete, stamped with its
final path). -/
theorem write_chunk_uploads_cases (hash : List Nat → String) (st : TusState) (id : String)
    (offset : Nat) (data : List Nat) (checksum : Option String) (now : String) :
    (write_chunk hash st id offset data checksum now).2.uploads = st.uploads
    ∨ ∃ u, st.uploads.find? (fun v => v.id == id) = some u
        ∧ offset = u.offset
        ∧ ((write_chunk hash st id offset data checksum now).2.uploads
            = updateUpload (updateUpload st.uploads id
                (advanceRecord (offset + data.length) now)) id
                (stampFinal ("complete/"
                  ++ final_name (advanceRecord (offset + data.length) now u) id))
          ∨ ((write_chunk hash st id offset data checksum now).2.uploads
              = updateUpload st.uploads id (advanceRecord (offset + data.length) now)
            ∧ (decide (u.length ≤ offset + data.length) || u.isComplete) = false)) := by
  cases hu : st.uploads.find? (fun v => v.id == id) with
  | none =>
    left
    rw [write_chunk_not_found hash st id offset data checksum now hu]
  | some u =>
    by_cases hoff : offset = u.offset
    · subst hoff
      cases hchk : checksum_mismatch hash data checksum with
      | true =>
        left
        rw [write_chunk_checksum_fail hash st id data checksum now u hu hchk]
      | false =>
        cases hfile : alookup st.files id with
        | none =>
          left
          rw [write_chunk_io_error hash st id data checksum now u hu hchk hfile]
        | some content =>
          right
          obtain ⟨u', _, _, _, _, _, hshape⟩ :=
            (write_chunk_success hash st id data checksum now u content hu hchk hfile).2
          exact ⟨u, rfl, rfl, hshape⟩
    · left
      rw [write_chunk_wrong_offset hash st id offset data checksum now u hu hoff]

/-- C4 (amended): record offsets are Nat so 0 <= offset always holds,
and create_upload, write_chunk and delete_upload preserve the invariant
that a complete record has final_path set and offset >= length; offset
<= length, however, is preserved by an accepted write_chunk only when
the chunk fits within the declared length - the code never checks this,
so an oversized chunk moves the offset strictly past the length, leaving
the record complete with offset > length (see the counterexample). -/
theorem tus_invariant_preservation (hash : List Nat → String) (st : TusState)
    (cid id did : String) (offset : Nat) (data : List Nat) (checksum : Option String)
    (now : String) (length : Nat) (metadata : List (String × String))
    (hInv : TusInv st) :
    TusInv (create_upload st cid length metadata now).2
    ∧ TusInv (write_chunk hash st id offset data checksum now).2
    ∧ TusInv (delete_upload st did).2
    ∧ (∀ u, st.uploads.find? (fun v => v.id == id) = some u →
        (∀ v ∈ st.uploads, v.offset ≤ v.length) →
        offset + data.length ≤ u.length →
        ∀ v ∈ (write_chunk hash st id offset data checksum now).2.uploads,
          v.offset ≤ v.length) := by
  obtain ⟨hnd, hmem⟩ := hInv
  refine ⟨?_, ?_, ?_, ?_⟩
  · unfold create_upload
    split
    · exact ⟨hnd, hmem⟩
    · dsimp only
      refine ⟨?_, ?_⟩
      · exact nodup_insertUpload st.uploads (TusUpload.new cid length metadata now) hnd
      · intro v hv hvc
        rcases mem_insertUpload _ _ _ hv with h1 | h1
        · rw [h1] at hvc
          exact absurd hvc (by simp [TusUpload.new])
        · exact hmem v h1 hvc
  · rcases write_chunk_uploads_cases hash st id offset data checksum now with
      hcase | ⟨u, hu, hoff, hshape⟩
    · refine ⟨?_, ?_⟩
      · rw [hcase]
        exact hnd
      · intro v hv hvc
        rw [hcase] at hv
        exact hmem v hv hvc
    · have humem : u ∈ st.uploads := List.mem_of_find?_eq_some hu
      rcases hshape with hsh | ⟨hsh, hfalse⟩
      · refine ⟨?_, ?_⟩
        · rw [hsh, map_id_updateUpload _ _ _ (stampFinal_id _),
            map_id_updateUpload _ _ _ (advanceRecord_id _ _)]
          exact hnd
        · intro v hv hvc
          rw [hsh] at hv
          obtain ⟨w, hw, hvw⟩ := mem_double_update _ _ _ _ (advanceRecord_id _ _) v hv
          cases hwid : w.id == id with
          | true =>
            have hwu : w = u := find?_eq_of_nodup st.uploads id u w hnd hu hw
              (by simpa using hwid)
            rw [if_pos hwid, hwu] at hvw
            subst hvw
            refine ⟨rfl, ?_⟩
            simp only [stampFinal, advanceRecord] at hvc ⊢
            rcases (by simpa using hvc :
                u.length ≤ offset + data.length ∨ u.isComplete = true) with hc | hc
            · omega
            · have := (hmem u humem hc).2
              omega
          | false =>
            rw [if_neg (by simp [hwid])] at hvw
            rw [hvw] at hvc ⊢
            exact hmem w hw hvc
      · refine ⟨?_, ?_⟩
        · rw [hsh, map_id_updateUpload _ _ _ (advanceRecord_id _ _)]
          exact hnd
        · intro v hv hvc
          rw [hsh] at hv
          obtain ⟨w, hw, hvw⟩ := mem_updateUpload _ _ _ _ hv
          cases hwid : w.id == id with
          | true =>
            have hwu : w = u := find?_eq_of_nodup st.uploads id u w hnd hu hw
              (by simpa using hwid)
            rw [if_pos hwid, hwu] at hvw
            subst hvw
            simp only [advanceRecord] at hvc
            rw [hvc] at hfalse
            simp at hfalse
          | false =>
            rw [if_neg (by simp [hwid])] at hvw
            rw [hvw] at hvc ⊢
            exact hmem w hw hvc
  · unfold delete_upload
    dsimp only
    refine ⟨?_, ?_⟩
    · exact List.Nodup.sublist ((List.filter_sublist _).map TusUpload.id) hnd
    · intro v hv hvc
      exact hmem v (List.mem_of_mem_filter hv) hvc
  · intro u hu hbound hfit v hv
    rcases write_chunk_uploads_cases hash st id offset data checksum now with
      hcase | ⟨u2, hu2, hoff, hshape⟩
    · rw [hcase] at hv
      exact hbound v hv
    · rw [hu] at hu2
      injection hu2 with h2
      subst h2
      rcases hshape with hsh | ⟨hsh, _⟩
      · rw [hsh] at hv
        obtain ⟨w, hw, hvw⟩ := mem_double_update _ _ _ _ (advanceRecord_id _ _) v hv
        cases hwid : w.id == id with
        | true =>
          have hwu : w = u := find?_eq_of_nodup st.uploads id u w hnd hu hw
            (by simpa using hwid)
          rw [if_pos hwid, hwu] at hvw
          subst hvw
          simp only [stampFinal, advanceRecord]
          omega
        | false =>
          rw [if_neg (by simp [hwid])] at hvw
          rw [hvw]
          exact hbound w hw
      · rw [hsh] at hv
        obtain ⟨w, hw, hvw⟩ := mem_updateUpload _ _ _ _ hv
        cases hwid : w.id == id with
        | true =>
          have hwu : w = u := find?_eq_of_nodup st.uploads id u w hnd hu hw
            (by simpa using hwid)
          rw [if_pos hwid, hwu] at hvw
          subst hvw
          simp only [advanceRecord]
          omega
        | false =>
          rw [if_neg (by simp [hwid])] at hvw
          rw [hvw]
          exact hbound w hw

/-- Empty upload store with a large configured maximum. -/
def stEmpty : TusState :=
  { maxSize := 1000000, uploads := [], files := [], sidecars := [], complete := [] }

/-- Record left behind by the oversized write: length 1 but offset 2. -/
def uOver : TusUpload :=
  { id := "u1", length := 1, offset := 2, metadata := [], createdAt := "t0",
    updatedAt := "t1", isComplete := true, finalPath := some "complete/u1.bin" }

/-- C4 counterexample: write_chunk never checks the chunk against the
remaining length, so creating an upload of declared length 1 and then
writing a two-byte chunk at offset 0 is accepted, returning offset 2 and
leaving a complete record with offset 2 > length 1 (and so with offset
different from length), refuting 0 <= offset <= length and the
offset-equals-length-on-completion part of the claim. -/
theorem tus_length_claim_counterexample :
    (write_chunk (fun _ => "") (create_upload stEmpty "u1" 1 [] "t0").2 "u1" 0 [0, 0]
        none "t1").1 = Except.ok 2
    ∧ (write_chunk (fun _ => "") (create_upload stEmpty "u1" 1 [] "t0").2 "u1" 0 [0, 0]
        none "t1").2.uploads.find? (fun v => v.id == "u1") = some uOver
    ∧ uOver.isComplete = true
    ∧ uOver.length < uOver.offset := by
  decide

/-- C4 witness: the invariants hold on stW and are preserved by a
create, a fitting write and a delete on it. -/
theorem tus_invariant_preservation_witness :
    TusInv stW
    ∧ TusInv (create_upload stW "u2" 5 [] "t2").2
    ∧ TusInv (write_chunk (fun _ => "") stW "u1" 0 [1, 2] none "t2").2
    ∧ TusInv (delete_upload stW "u1").2 := by
  have h := tus_invariant_preservation (fun _ => "") stW "u2" "u1" "u1" 0 [1, 2] none "t2"
    5 [] (by constructor <;> decide)
  exact ⟨by constructor <;> decide, h.1, h.2.1, h.2.2.1⟩

/-! ## Properties of the filename sanitizer -/

/-- The ASCII character class the specification names: A-Z a-z 0-9,
period, dash, underscore and space. -/
def asciiAllowed (c : Char) : Bool :=
  (48 ≤ c.toNat && c.toNat ≤ 57) || (65 ≤ c.toNat && c.toNat ≤ 90)
  || (97 ≤ c.toNat && c.toNat ≤ 122) || c.toNat == 46 || c.toNat == 45
  || c.toNat == 95 || c.toNat == 32

theorem mem_of_getLast? {α : Type} {l : List α} {a : α} (h : l.getLast? = some a) :
    a ∈ l := by
  induction l with
  | nil => simp at h
  | cons x t ih =>
    cases t with
    | nil =>
      simp only [List.getLast?_singleton, Option.some.injEq] at h
      simp [h]
    | cons y t2 =>
      rw [List.getLast?_cons_cons] at h
      exact List.mem_cons_of_mem _ (ih h)

theorem mem_splitSlashAux :
    ∀ (l acc comp : List Char), comp ∈ splitSlashAux l acc →
      ∀ c ∈ comp, c ∈ l ∨ c ∈ acc := by
  intro l
  induction l with
  | nil =>
    intro acc comp hcomp c hc
    simp only [splitSlashAux, List.mem_singleton] at hcomp
    right
    rw [hcomp] at hc
    exact List.mem_reverse.mp hc
  | cons d cs ih =>
    intro acc comp hcomp c hc
    unfold splitSlashAux at hcomp
    split at hcomp
    · rcases List.mem_cons.mp hcomp with h1 | h1
      · right
        rw [h1] at hc
        exact List.mem_reverse.mp hc
      · rcases ih [] comp h1 c hc with h2 | h2
        · exact Or.inl (List.mem_cons_of_mem _ h2)
        · simp at h2
    · rcases ih (d :: acc) comp hcomp c hc with h2 | h2
      · exact Or.inl (List.mem_cons_of_mem _ h2)
      · rcases List.mem_cons.mp h2 with h3 | h3
        · exact Or.inl (h3 ▸ List.mem_cons_self _ _)
        · exact Or.inr h3

theorem file_name_chars (s n : String) (h : file_name s = some n) :
    ∀ c ∈ n.data, c ∈ s.data := by
  unfold file_name at h
  cases hlast : (((splitSlashAux s.data []).filter
      (fun c => !(c == ([] : List Char)) && !(c == ['.']))).getLast?) with
  | none => rw [hlast] at h; simp at h
  | some last =>
    rw [hlast] at h
    dsimp only at h
    split at h
    · simp at h
    · have hn : n = String.mk last := by
        injection h with h2
        exact h2.symm
      intro c hc
      rw [hn] at hc
      have hmem : last ∈ splitSlashAux s.data [] :=
        List.mem_of_mem_filter (mem_of_getLast? hlast)
      rcases mem_splitSlashAux s.data [] last hmem c hc with h3 | h3
      · exact h3
      · simp at h3

theorem mem_trimChars (l : List Char) (c : Char) (h : c ∈ trimChars l) : c ∈ l := by
  unfold trimChars at h
  rw [List.mem_reverse] at h
  have h1 := (List.dropWhile_sublist _).subset h
  rw [List.mem_reverse] at h1
  exact (List.dropWhile_sublist _).subset h1

theorem keepChar_ascii (c : Char) (h : keepChar c = true) (hlt : c.toNat < 128) :
    asciiAllowed c = true := by
  by_cases h46 : c = '.'
  · subst h46; decide
  by_cases h45 : c = '-'
  · subst h45; decide
  by_cases h95 : c = '_'
  · subst h95; decide
  by_cases h32 : c = ' '
  · subst h32; decide
  simp only [keepChar, Bool.or_eq_true, beq_iff_eq, h46, h45, h95, h32, or_false] at h
  simp only [rustIsAlphanumeric, Bool.or_eq_true, Bool.and_eq_true, decide_eq_true_eq,
    beq_iff_eq] at h
  simp only [asciiAllowed, Bool.or_eq_true, Bool.and_eq_true, decide_eq_true_eq,
    beq_iff_eq]
  omega

/-- C9 (amended): the sanitizer first strips path components (keeping
the last normal one, or the literal unknown), then keeps exactly the
characters that are Unicode-alphanumeric or period, dash, underscore or
space, then trims; hence every character of the output belongs to that
(Unicode) class, and for an input made of ASCII characters every output
character lies in the ASCII set [A-Za-z0-9 ._-] the claim names.  The
claim's ASCII guarantee fails for general input only because Rust's
is_alphanumeric is Unicode-wide (see the counterexample). -/
theorem sanitize_filename_chars (s : String) :
    (∀ c ∈ (sanitize_filename s).data, keepChar c = true)
    ∧ ((∀ c ∈ s.data, c.toNat < 128) →
        ∀ c ∈ (sanitize_filename s).data, asciiAllowed c = true)
    ∧ sanitize_filename "dir/sub/na me.txt" = "na me.txt" := by
  have hkeep : ∀ c ∈ (sanitize_filename s).data, keepChar c = true := by
    intro c hc
    unfold sanitize_filename at hc
    have h1 := mem_trimChars _ _ hc
    exact (List.mem_filter.mp h1).2
  refine ⟨hkeep, ?_, by decide⟩
  intro hascii c hc
  have hk := hkeep c hc
  unfold sanitize_filename at hc
  have h1 := mem_trimChars _ _ hc
  have h2 := (List.mem_filter.mp h1).1
  cases hfn : file_name s with
  | some n =>
    rw [hfn] at h2
    have h3 := file_name_chars s n hfn c h2
    exact keepChar_ascii c hk (hascii c h3)
  | none =>
    rw [hfn] at h2
    have hunk : ∀ c2 ∈ ((Option.none : Option String).getD "unknown").data,
        c2.toNat < 128 := by decide
    exact keepChar_ascii c hk (hunk c h2)

/-- C9 witness: on the ASCII input with a path and spaces, the sanitizer
keeps only allowed characters. -/
theorem sanitize_filename_chars_witness :
    (∀ c ∈ ("dir/sub/na me.txt" : String).data, c.toNat < 128)
    ∧ (∀ c ∈ (sanitize_filename "dir/sub/na me.txt").data, asciiAllowed c = true)
    ∧ sanitize_filename "dir/sub/na me.txt" = "na me.txt" := by
  have h := sanitize_filename_chars "dir/sub/na me.txt"
  exact ⟨by decide, h.2.1 (by decide), h.2.2⟩

/-- C9 counterexample: the accented letter e-acute (U+00E9) is
alphanumeric for Rust's Unicode-aware filter, so it survives the
sanitizer although it lies outside [A-Za-z0-9 ._-]. -/
theorem sanitize_claim_counterexample :
    sanitize_filename "é" = "é"
    ∧ (sanitize_filename "é").data.all asciiAllowed = false := by
  decide

/-! ## LAN peer messaging (src-tauri/src/internal_p2p.rs)

InternalP2PManager::send_to_peer resolves the recipient's user id to a
peer record, tries TCP and then UDP against that peer's address, and
queues the message under the recipient's user id when no peer is known
or both transports fail.  The two socket sends are embedded as outcome
oracles on the target address (tcpOk/udpOk); the JSON result object is
embedded as a record whose queued flag mirrors the presence of the
error field; and the list of attempted transports, in order, is
returned alongside so transport ordering can be stated. -/

/-- Peer record (internal_p2p.rs PeerInfo). -/
structure PeerInfo where
  peerId : String
  userId : String
  userName : Option String
  schoolId : Option String
  ipAddress : String
  port : Nat
  lastSeen : String
  isOnline : Bool
  hostname : Option String
  platform : Option String
deriving DecidableEq, Repr

/-- Transports of the peer fabric. -/
inductive Transport where
  | tcp | udp
deriving DecidableEq, Repr

/-- Result object of send_to_peer: success is always reported, and
queued records whether the queued-because-offline error field was set. -/
structure SendResult where
  success : Bool
  queued : Bool
deriving DecidableEq, Repr

/-- Append a message to the offline queue under a user id
(InternalP2PManager::queue_message, entry().or_default().push()). -/
def queue_message (q : List (String × List String)) (uid msg : String) :
    List (String × List String) :=
  if q.any (fun e => e.1 == uid) then
    q.map (fun e => if e.1 == uid then (e.1, e.2 ++ [msg]) else e)
  else q ++ [(uid, [msg])]

/-- Send one message (InternalP2PManager::send_to_peer): resolve the
recipient among the peer records by userId, try TCP first, fall back to
UDP, and queue on double failure or when no record exists. -/
def send_to_peer (peers : List PeerInfo) (queue : List (String × List String))
    (tcpOk udpOk : String → Bool) (receiverId msg : String) :
    SendResult × List (String × List String) × List (Transport × String) :=
  match peers.find? (fun p => p.userId == receiverId) with
  | some p =>
    if tcpOk p.ipAddress then
      ({ success := true, queued := false }, queue, [(Transport.tcp, p.ipAddress)])
    else if udpOk p.ipAddress then
      ({ success := true, queued := false }, queue,
        [(Transport.tcp, p.ipAddress), (Transport.udp, p.ipAddress)])
    else
      ({ success := true, queued := true }, queue_message queue receiverId msg,
        [(Transport.tcp, p.ipAddress), (Transport.udp, p.ipAddress)])
  | none =>
    ({ success := true, queued := true }, queue_message queue receiverId msg, [])

/-- Total number of queued messages plus entries, a measure that every
queue_message strictly increases. -/
def queueSize : List (String × List String) → Nat
  | [] => 0
  | e :: t => e.2.length + 1 + queueSize t

theorem queueSize_map_ge (uid msg : String) :
    ∀ q : List (String × List String),
      queueSize q ≤ queueSize (q.map (fun e => if e.1 == uid then (e.1, e.2 ++ [msg]) else e)) := by
  intro q
  induction q with
  | nil => simp [queueSize]
  | cons e t ih =>
    cases he : e.1 == uid with
    | true =>
      simp only [List.map_cons, he, if_true, queueSize, List.length_append]
      omega
    | false =>
      simp only [List.map_cons, he, Bool.false_eq_true, if_false, queueSize]
      omega

theorem queueSize_append (q : List (String × List String)) (x : String × List String) :
    queueSize (q ++ [x]) = queueSize q + x.2.length + 1 := by
  induction q with
  | nil => simp [queueSize]
  | cons e t ih =>
    have hc : (e :: t) ++ [x] = e :: (t ++ [x]) := rfl
    rw [hc]
    show e.2.length + 1 + queueSize (t ++ [x]) = e.2.length + 1 + queueSize t + x.2.length + 1
    rw [ih]
    omega

theorem queueSize_map_update (uid msg : String) :
    ∀ q : List (String × List String), (q.any fun e => e.1 == uid) = true →
      queueSize q
        < queueSize (q.map (fun e => if e.1 == uid then (e.1, e.2 ++ [msg]) else e)) := by
  intro q
  induction q with
  | nil => simp
  | cons e t ih =>
    intro hany
    cases he : e.1 == uid with
    | true =>
      simp only [List.map_cons, he, if_true, queueSize, List.length_append,
        List.length_cons, List.length_nil]
      have := queueSize_map_ge uid msg t
      omega
    | false =>
      have hany2 : (t.any fun e => e.1 == uid) = true := by
        simp only [List.any_cons, he, Bool.false_or] at hany
        exact hany
      simp only [List.map_cons, he, Bool.false_eq_true, if_false, queueSize]
      have := ih hany2
      omega

theorem queueSize_queue_message (q : List (String × List String)) (uid msg : String) :
    queueSize q < queueSize (queue_message q uid msg) := by
  unfold queue_message
  split
  · rename_i hany
    exact queueSize_map_update uid msg q hany
  · rw [queueSize_append]
    omega

theorem queue_message_ne (q : List (String × List String)) (uid msg : String) :
    queue_message q uid msg ≠ q := by
  intro h
  have := queueSize_queue_message q uid msg
  rw [h] at this
  omega

/-- C8: send_to_peer appends the message to the offline queue under the
recipient's user id exactly when no peer record carries that userId or
both the TCP and the UDP attempt fail; when one transport succeeds the
queue is unchanged; and every attempt trace is empty, TCP alone, or TCP
followed by UDP against the same address - so the TCP attempt always
precedes the UDP attempt. -/
theorem send_to_peer_spec (peers : List PeerInfo) (queue : List (String × List String))
    (tcpOk udpOk : String → Bool) (receiverId msg : String) :
    ((send_to_peer peers queue tcpOk udpOk receiverId msg).2.1
        = queue_message queue receiverId msg
      ↔ (peers.find? (fun p => p.userId == receiverId) = none
         ∨ ∃ p, peers.find? (fun p2 => p2.userId == receiverId) = some p
             ∧ tcpOk p.ipAddress = false ∧ udpOk p.ipAddress = false))
    ∧ ((send_to_peer peers queue tcpOk udpOk receiverId msg).1.queued = false →
        (send_to_peer peers queue tcpOk udpOk receiverId msg).2.1 = queue)
    ∧ ((send_to_peer peers queue tcpOk udpOk receiverId msg).1.queued = true →
        (send_to_peer peers queue tcpOk udpOk receiverId msg).2.1
          = queue_message queue receiverId msg)
    ∧ ((send_to_peer peers queue tcpOk udpOk receiverId msg).2.2 = []
        ∨ ∃ ip, (send_to_peer peers queue tcpOk udpOk receiverId msg).2.2
              = [(Transport.tcp, ip)]
          ∨ (send_to_peer peers queue tcpOk udpOk receiverId msg).2.2
              = [(Transport.tcp, ip), (Transport.udp, ip)]) := by
  cases hp : peers.find? (fun p => p.userId == receiverId) with
  | none =>
    unfold send_to_peer
    rw [hp]
    exact ⟨⟨fun _ => Or.inl rfl, fun _ => rfl⟩, fun h => by simp at h, fun _ => rfl,
      Or.inl rfl⟩
  | some p =>
    unfold send_to_peer
    rw [hp]
    dsimp only
    cases ht : tcpOk p.ipAddress with
    | true =>
      rw [if_pos rfl]
      refine ⟨⟨fun h => absurd h.symm (queue_message_ne queue receiverId msg), ?_⟩,
        fun _ => rfl, fun h => by simp at h, Or.inr ⟨p.ipAddress, Or.inl rfl⟩⟩
      intro h
      rcases h with h | ⟨p2, hp2, ht2, _⟩
      · simp at h
      · injection hp2 with hp2
        rw [← hp2] at ht2
        rw [ht] at ht2
        simp at ht2
    | false =>
      rw [if_neg (by simp [ht])]
      cases hu : udpOk p.ipAddress with
      | true =>
        rw [if_pos rfl]
        refine ⟨⟨fun h => absurd h.symm (queue_message_ne queue receiverId msg), ?_⟩,
          fun _ => rfl, fun h => by simp at h, Or.inr ⟨p.ipAddress, Or.inr rfl⟩⟩
        intro h
        rcases h with h | ⟨p2, hp2, _, hu2⟩
        · simp at h
        · injection hp2 with hp2
          rw [← hp2] at hu2
          rw [hu] at hu2
          simp at hu2
      | false =>
        rw [if_neg (by simp [hu])]
        exact ⟨⟨fun _ => Or.inr ⟨p, rfl, ht, hu⟩, fun _ => rfl⟩, fun h => by simp at h,
          fun _ => rfl, Or.inr ⟨p.ipAddress, Or.inr rfl⟩⟩
